import Mathlib

/-!
Verification of the screen-session module `node_manager_daemon_fkie/screen.py`.

Python strings are modelled as `List Char`.  Python `str.replace` with a
one-character pattern is `pyReplaceChar`; with a two-character pattern it is
`pyReplace2` (greedy, left to right, non-overlapping, as in CPython).
`None`-able arguments are modelled with `Option`.  The module global
`LOG_PATH` (resolved from the environment once at import time) is passed
explicitly as the `lp` argument of the path helpers.  The filesystem is
modelled as the set of existing paths, `FS := List Char → Bool`, and
`os.remove` as a fallible operation that fails on a missing path.
-/

/-- Whitespace set of Python `str.strip()` (ASCII range). -/
def pyspace (c : Char) : Bool :=
  c == ' ' || c == '\t' || c == '\n' || c == '\r' || c == '\x0b' || c == '\x0c'

/-- Python `s.strip()` on ASCII whitespace. -/
def pystrip (s : List Char) : List Char :=
  ((s.dropWhile pyspace).reverse.dropWhile pyspace).reverse

/-- Python `s.strip('/')`. -/
def pystripSlash (s : List Char) : List Char :=
  ((s.dropWhile (· == '/')).reverse.dropWhile (· == '/')).reverse

/-- Python `s.replace(old, new)` for a one-character pattern `old`. -/
def pyReplaceChar (c : Char) (r : List Char) : List Char → List Char
  | [] => []
  | x :: rest => (if x = c then r else [x]) ++ pyReplaceChar c r rest

/-- Python `s.replace(old, new)` for a two-character pattern `[p, q]`:
greedy, left to right, non-overlapping. -/
def pyReplace2 (p q : Char) (r : List Char) : List Char → List Char
  | [] => []
  | [c] => [c]
  | c1 :: c2 :: rest =>
    if c1 = p ∧ c2 = q then r ++ pyReplace2 p q r rest
    else c1 :: pyReplace2 p q r (c2 :: rest)

/-- Python `s.split(sep, 1)`: `none` when `sep` does not occur (one part),
otherwise the parts before and after the first occurrence. -/
def splitFirst (sep : Char) : List Char → Option (List Char × List Char)
  | [] => none
  | c :: rest =>
    if c = sep then some ([], rest)
    else
      match splitFirst sep rest with
      | none => none
      | some (a, b) => some (c :: a, b)

/-- Digit loop of Python `int()`: ASCII decimal digits, a single `'_'`
allowed between digits (CPython 3 literal grammar). -/
def digitsGo (acc : Nat) : List Char → Option Nat
  | [] => some acc
  | c :: r =>
    if c = '_' then
      match r with
      | [] => none
      | d :: r2 => if d.isDigit then digitsGo (10 * acc + (d.toNat - 48)) r2 else none
    else if c.isDigit then digitsGo (10 * acc + (c.toNat - 48)) r
    else none

/-- Unsigned part of Python `int()` on an ASCII decimal string. -/
def digitsVal (s : List Char) : Option Nat :=
  match s with
  | [] => none
  | c :: r => if c.isDigit then digitsGo (c.toNat - 48) r else none

/-- Python `int(s)`: optional surrounding whitespace, optional sign, ASCII
decimal digits; `none` models the `ValueError`. -/
def pyint? (s : List Char) : Option Int :=
  match pystrip s with
  | [] => none
  | c :: r =>
    if c = '+' then (digitsVal r).map (fun n => (n : Int))
    else if c = '-' then (digitsVal r).map (fun n => -(n : Int))
    else (digitsVal (c :: r)).map (fun n => (n : Int))

/-- Decimal digit string of a natural number, fuel-based so the recursion
is structural (the fuel `n + 1` always exceeds the digit count). -/
def natStrAux (fuel n : Nat) : List Char :=
  match fuel with
  | 0 => []
  | f + 1 =>
    if n < 10 then [Char.ofNat (48 + n)]
    else natStrAux f (n / 10) ++ [Char.ofNat (48 + n % 10)]

/-- Decimal digit string of a natural number. -/
def natStr (n : Nat) : List Char := natStrAux (n + 1) n

/-- Python `'%d' % i` for an `int`. -/
def intStr (i : Int) : List Char :=
  if i < 0 then '-' :: natStr i.natAbs else natStr i.natAbs

/-- Model of `rospy.names.ns_join('/', name)` as called by
`create_session_name`: a global (`'/'`-leading) or private (`'~'`-leading)
name is returned unchanged, otherwise `'/'` is prefixed. -/
def ns_join_root (name : List Char) : List Char :=
  if name.head? = some '~' ∨ name.head? = some '/' then name else '/' :: name

/-- `screen.create_session_name`: `None` gives `''`; otherwise
`ns_join('/', node)` with every `'_'` doubled first and every `'/'` then
replaced by `'_'`. -/
def create_session_name (node : Option (List Char)) : List Char :=
  match node with
  | none => []
  | some n => pyReplaceChar '/' ['_'] (pyReplaceChar '_' ['_', '_'] (ns_join_root n))

/-- `screen.session_name2node_name`: `'__' → '//'`, then `'_' → '/'`, then
`'//' → '_'`. -/
def session_name2node_name (session : List Char) : List Char :=
  pyReplace2 '/' '/' ['_'] (pyReplaceChar '_' ['/'] (pyReplace2 '_' '_' ['/', '/'] session))

/-- Return type of `split_session_name`: the function returns the string
`''` as PID for `None` input and an `int` PID otherwise. -/
inductive Pid where
  | str : List Char → Pid
  | int : Int → Pid
deriving DecidableEq

/-- `screen.split_session_name`.  The guard `if not node` in the source is
unreachable because Python `split` always returns at least one part; the
first tab-delimited token of the second part is `takeWhile (· != '\t')`. -/
def split_session_name (session : Option (List Char)) : Pid × List Char :=
  match session with
  | none => (Pid.str [], [])
  | some s =>
    match splitFirst '.' s with
    | none => (Pid.int (-1), [])
    | some (a, b) =>
      match pyint? (pystrip a) with
      | none => (Pid.int (-1), [])
      | some n => (Pid.int n, pystrip (b.takeWhile (fun c => c != '\t')))

/-- Python `dict` with string keys and values, modelled as its lookup
function. -/
def Dict : Type := List Char → Option (List Char)

/-- Empty dictionary `result = {}`. -/
def dempty : Dict := fun _ => none

/-- Assignment `result[k] = v` on a `dict`. -/
def dinsert (k v : List Char) (m : Dict) : Dict :=
  fun q => if q = k then some v else m q

/-- Python `'%d.%s' % (pid, nodepart)`. -/
def screen_key (pid : Int) (nodepart : List Char) : List Char :=
  intStr pid ++ '.' :: nodepart

/-- Loop of `screen.get_active_screens` over the lines of the external
`screen -ls` output. -/
def screens_go (nodename : List Char) : List (List Char) → Dict → Dict
  | [], acc => acc
  | item :: rest, acc =>
    match split_session_name (some item) with
    | (Pid.int pid, nodepart) =>
      if pid ≠ -1 then
        if nodename ≠ [] then
          if nodepart.head? = some '_' then
            if nodename = session_name2node_name nodepart then
              screens_go nodename rest (dinsert (screen_key pid nodepart) nodename acc)
            else screens_go nodename rest acc
          else screens_go nodename rest acc
        else
          screens_go nodename rest
            (dinsert (screen_key pid nodepart) (session_name2node_name nodepart) acc)
      else screens_go nodename rest acc
    | (Pid.str _, _) => screens_go nodename rest acc

/-- `screen.get_active_screens`, with the text output of the external
`screen -ls` command given as its list of lines. -/
def get_active_screens (lines : List (List Char)) (nodename : List Char) : Dict :=
  screens_go nodename lines dempty

/-- `screen.get_logfile`. -/
def get_logfile (lp : List Char) (session node : Option (List Char)) : List Char :=
  match session with
  | some s => lp ++ s ++ ".log".toList
  | none =>
    match node with
    | some n => lp ++ create_session_name (some n) ++ ".log".toList
    | none => lp ++ "unknown".toList ++ ".log".toList

/-- `screen.get_cfgfile`. -/
def get_cfgfile (lp : List Char) (session node : Option (List Char)) : List Char :=
  match session with
  | some s => lp ++ s ++ ".conf".toList
  | none =>
    match node with
    | some n => lp ++ create_session_name (some n) ++ ".conf".toList
    | none => lp ++ "unknown".toList ++ ".conf".toList

/-- `screen.get_pidfile`. -/
def get_pidfile (lp : List Char) (session node : Option (List Char)) : List Char :=
  match session with
  | some s => lp ++ s ++ ".pid".toList
  | none =>
    match node with
    | some n => lp ++ create_session_name (some n) ++ ".pid".toList
    | none => lp ++ "unknown".toList ++ ".pid".toList

/-- `screen.get_ros_logfile`. -/
def get_ros_logfile (lp : List Char) (node : Option (List Char)) : List Char :=
  match node with
  | some n => lp ++ pyReplaceChar '/' ['_'] (pystripSlash n) ++ ".log".toList
  | none => []

/-- Text of the directive written by `screen._append_env`. -/
def setenv_format (arg v : List Char) : List Char :=
  "setenv ".toList ++ arg ++ ' ' :: v ++ ['\n']

/-- `screen._append_env`: the directive written, if any; `none` models the
`False` return (name absent, or value falsy i.e. empty). -/
def append_env (env : List Char → Option (List Char)) (arg : List Char) :
    Option (List Char) :=
  match env arg with
  | some v => if v ≠ [] then some (setenv_format arg v) else none
  | none => none

/-- Per-key write of the `get_cmd` loop:
`if not _append_env(f, key, env): _append_env(f, key, os.environ)`. -/
def setenv_line (cenv henv : List Char → Option (List Char)) (arg : List Char) :
    Option (List Char) :=
  match append_env cenv arg with
  | some l => some l
  | none => append_env henv arg

/-- Filesystem state as the set of existing files. -/
def FS : Type := List Char → Bool

/-- `os.remove`: fails when the path does not exist. -/
def removeFile (fs : FS) (p : List Char) : Option FS :=
  if fs p = true then some (fun q => if q = p then false else fs q) else none

/-- Guarded removal `if os.path.isfile(p): os.remove(p)`. -/
def rmIfExists (fs : FS) (p : List Char) : Option FS :=
  if fs p = true then removeFile fs p else some fs

/-- `screen.delete_log`: the four guarded removals in source order. -/
def delete_log (lp : List Char) (fs : FS) (nodename : List Char) : Option FS :=
  match rmIfExists fs (get_logfile lp none (some nodename)) with
  | none => none
  | some f1 =>
    match rmIfExists f1 (get_cfgfile lp none (some nodename)) with
    | none => none
    | some f2 =>
      match rmIfExists f2 (get_pidfile lp none (some nodename)) with
      | none => none
      | some f3 => rmIfExists f3 (get_ros_logfile lp (some nodename))

/-- Net effect of `delete_log` on the filesystem: the four derived paths
made absent, everything else untouched. -/
def delete_log_result (lp : List Char) (fs : FS) (n : List Char) : FS :=
  fun q =>
    if q = get_logfile lp none (some n) ∨ q = get_cfgfile lp none (some n) ∨
        q = get_pidfile lp none (some n) ∨ q = get_ros_logfile lp (some n) then
      false
    else fs q

/-- Validity of a hierarchical worker name for the round-trip property:
scanning left to right, no `'/'` is immediately followed by `'/'` (an empty
path component) or by `'_'` (a component starting with the delimiter, the
collision case of the doubling escape). -/
def chain2ok : List Char → Bool
  | [] => true
  | [_] => true
  | c1 :: c2 :: rest =>
    if c1 = '/' ∧ (c2 = '/' ∨ c2 = '_') then false else chain2ok (c2 :: rest)

/-- Fused form of `create_session_name`'s two substitutions:
`'/' ↦ "_"`, `'_' ↦ "__"`, other characters unchanged. -/
def encFuse : List Char → List Char
  | [] => []
  | c :: r => (if c = '/' then ['_'] else if c = '_' then ['_', '_'] else [c]) ++ encFuse r

/-- State of the encoded string after the decoder's first pass
(`'__' → '//'`), expressed against the original name:
`'/' ↦ "_"`, `'_' ↦ "//"`. -/
def gFuse : List Char → List Char
  | [] => []
  | c :: r => (if c = '/' then ['_'] else if c = '_' then ['/', '/'] else [c]) ++ gFuse r

/-- State after the decoder's second pass (`'_' → '/'`), against the
original name: `'_' ↦ "//"`, other characters unchanged. -/
def ddFuse : List Char → List Char
  | [] => []
  | c :: r => (if c = '_' then ['/', '/'] else [c]) ++ ddFuse r

/-- Boolean test: this registry line contributes key `k` to
`get_active_screens` when a node-name filter is active. -/
def line_hit_filtered (nodename k item : List Char) : Bool :=
  match split_session_name (some item) with
  | (Pid.int pid, np) =>
    decide (pid ≠ -1 ∧ np.head? = some '_' ∧
      session_name2node_name np = nodename ∧ k = screen_key pid np)
  | (Pid.str _, _) => false

/-- Boolean test: this registry line contributes key `k` to
`get_active_screens` when no filter is active. -/
def line_hit_all (k item : List Char) : Bool :=
  match split_session_name (some item) with
  | (Pid.int pid, np) => decide (pid ≠ -1 ∧ k = screen_key pid np)
  | (Pid.str _, _) => false

/-- Helper: `splitFirst` finds nothing when the separator is absent. -/
theorem splitFirst_eq_none (sep : Char) (s : List Char) (h : sep ∉ s) :
    splitFirst sep s = none := by
  induction s with
  | nil => rfl
  | cons c rest ih =>
    have hc : c ≠ sep := fun hc => h (hc ▸ List.mem_cons_self c rest)
    have hr : sep ∉ rest := fun hr => h (List.mem_cons_of_mem c hr)
    simp [splitFirst, hc, ih hr]

/-- Helper: `splitFirst` splits at the first separator occurrence. -/
theorem splitFirst_append (sep : Char) (a b : List Char) (h : sep ∉ a) :
    splitFirst sep (a ++ sep :: b) = some (a, b) := by
  induction a with
  | nil => simp [splitFirst]
  | cons c rest ih =>
    have hc : c ≠ sep := fun hc => h (hc ▸ List.mem_cons_self c rest)
    have hr : sep ∉ rest := fun hr => h (List.mem_cons_of_mem c hr)
    simp [splitFirst, hc, ih hr]

/-- Helper: a character of `r` produced by `pyReplaceChar c r` is a
character of `r` or a character of the input other than `c`. -/
theorem mem_pyReplaceChar (c x : Char) (r s : List Char)
    (h : x ∈ pyReplaceChar c r s) : x ∈ r ∨ (x ∈ s ∧ x ≠ c) := by
  induction s with
  | nil => simp [pyReplaceChar] at h
  | cons y rest ih =>
    simp only [pyReplaceChar, List.mem_append] at h
    rcases h with h | h
    · by_cases hy : y = c
      · rw [if_pos hy] at h
        exact Or.inl h
      · rw [if_neg hy] at h
        rcases List.mem_singleton.1 h with rfl
        exact Or.inr ⟨List.mem_cons_self x rest, hy⟩
    · rcases ih h with h1 | ⟨h1, h2⟩
      · exact Or.inl h1
      · exact Or.inr ⟨List.mem_cons_of_mem y h1, h2⟩

/-- C8: for every worker name (`None` included), the session name produced
by `create_session_name` contains no path-separator character `'/'`. -/
theorem create_session_name_no_slash (node : Option (List Char)) :
    '/' ∉ create_session_name node := by
  cases node with
  | none => simp [create_session_name]
  | some n =>
    intro h
    rcases mem_pyReplaceChar _ _ _ _ h with h1 | ⟨_, h2⟩
    · simp at h1
    · exact h2 rfl

/-- C2 counterexample: on `None`, `split_session_name` does not return the
claimed sentinel `(-1, '')`; it returns the pair of empty strings. -/
theorem split_session_name_none_counterexample :
    ¬ (split_session_name none = (Pid.int (-1), [])) := by decide

/-- C2 amended: `split_session_name(None)` returns `('', '')` (empty-string
PID), and every string that does not split on `'.'` into two parts returns
the sentinel `(-1, '')`. -/
theorem split_session_name_invalid_spec :
    split_session_name none = (Pid.str [], []) ∧
    ∀ s : List Char, '.' ∉ s → split_session_name (some s) = (Pid.int (-1), []) := by
  refine ⟨rfl, fun s hs => ?_⟩
  simp [split_session_name, splitFirst_eq_none '.' s hs]

/-- C2 witness: the amended statement at the spec's concrete example
`"not-a-session"`. -/
theorem split_session_name_invalid_witness :
    split_session_name (some "not-a-session".toList) = (Pid.int (-1), []) :=
  split_session_name_invalid_spec.2 _ (by decide)

/-- C5 counterexample: the empty (but present) worker name does not encode
to the empty string: `create_session_name('')` is `'_'`, the encoding of
the normalized name `'/'`. -/
theorem create_session_name_empty_counterexample :
    create_session_name (some []) ≠ [] := by decide

/-- C5 amended: only the absent name (`None`) yields `''`; the empty string
normalizes to `'/'` and encodes to `'_'`; and for every name not starting
with `'~'`, the encoding prefixes `'/'` if missing, then doubles every
`'_'`, then replaces every `'/'` by `'_'`, in that order. -/
theorem create_session_name_spec :
    create_session_name none = [] ∧
    create_session_name (some []) = ['_'] ∧
    ∀ n : List Char, n.head? ≠ some '~' →
      create_session_name (some n) =
        pyReplaceChar '/' ['_'] (pyReplaceChar '_' ['_', '_']
          (if n.head? = some '/' then n else '/' :: n)) := by
  refine ⟨rfl, by decide, fun n hn => ?_⟩
  by_cases h : n.head? = some '/'
  · simp [create_session_name, ns_join_root, h]
  · simp [create_session_name, ns_join_root, h, hn]

/-- C5 witness: the amended statement evaluated at the relative name
`"a_b"`, which encodes to `"_a__b"`. -/
theorem create_session_name_spec_witness :
    create_session_name (some "a_b".toList) = "_a__b".toList := by
  have h := create_session_name_spec.2.2 "a_b".toList (by decide)
  rw [h]
  decide

/-- C6: the three session-file path helpers derive `LOG_PATH` + session
identifier + fixed suffix; an explicit `session` takes precedence over
`node`; with neither, the placeholder `"unknown"` is used.  All three are
pure string computations. -/
theorem path_derivation_spec (lp s n0 : List Char) (node : Option (List Char)) :
    (get_logfile lp none (some n0) = lp ++ create_session_name (some n0) ++ ".log".toList ∧
      get_cfgfile lp none (some n0) = lp ++ create_session_name (some n0) ++ ".conf".toList ∧
      get_pidfile lp none (some n0) = lp ++ create_session_name (some n0) ++ ".pid".toList) ∧
    (get_logfile lp (some s) node = lp ++ s ++ ".log".toList ∧
      get_cfgfile lp (some s) node = lp ++ s ++ ".conf".toList ∧
      get_pidfile lp (some s) node = lp ++ s ++ ".pid".toList) ∧
    (get_logfile lp none none = lp ++ "unknown".toList ++ ".log".toList ∧
      get_cfgfile lp none none = lp ++ "unknown".toList ++ ".conf".toList ∧
      get_pidfile lp none none = lp ++ "unknown".toList ++ ".pid".toList) :=
  ⟨⟨rfl, rfl, rfl⟩, ⟨rfl, rfl, rfl⟩, ⟨rfl, rfl, rfl⟩⟩

/-- C7: a forwarded environment name is written from `callerEnv` when
present there with a non-empty value, otherwise from the host environment
when present there with a non-empty value; a name absent or empty in both
produces no `setenv` directive. -/
theorem setenv_line_spec (cenv henv : List Char → Option (List Char)) (arg : List Char) :
    (∀ v, cenv arg = some v → v ≠ [] →
      setenv_line cenv henv arg = some (setenv_format arg v)) ∧
    ((cenv arg = none ∨ cenv arg = some []) → ∀ v, henv arg = some v → v ≠ [] →
      setenv_line cenv henv arg = some (setenv_format arg v)) ∧
    ((cenv arg = none ∨ cenv arg = some []) → (henv arg = none ∨ henv arg = some []) →
      setenv_line cenv henv arg = none) := by
  refine ⟨fun v hv hne => ?_, fun hc v hv hne => ?_, fun hc hh => ?_⟩
  · simp [setenv_line, append_env, hv, hne]
  · rcases hc with hc | hc <;> simp [setenv_line, append_env, hc, hv, hne]
  · rcases hc with hc | hc <;> rcases hh with hh | hh <;>
      simp [setenv_line, append_env, hc, hh]

/-- C7 witness: with `ROS_NAMESPACE=/ns` in the caller environment and an
empty host environment, the directive `setenv ROS_NAMESPACE /ns` is
produced. -/
theorem setenv_line_witness :
    setenv_line (fun k => if k = "ROS_NAMESPACE".toList then some "/ns".toList else none)
      (fun _ => none) "ROS_NAMESPACE".toList =
      some (setenv_format "ROS_NAMESPACE".toList "/ns".toList) :=
  (setenv_line_spec _ _ _).1 _ (by simp) (by decide)

/-- Helper: the guarded removal never fails and makes exactly its path
absent. -/
theorem rmIfExists_eq (fs : FS) (p : List Char) :
    rmIfExists fs p = some (fun q => if q = p then false else fs q) := by
  by_cases h : fs p = true
  · simp [rmIfExists, removeFile, h]
  · have hf : fs p = false := by
      cases hfp : fs p
      · rfl
      · exact absurd hfp h
    simp only [rmIfExists, h, if_false, if_neg]
    refine congrArg some ?_
    funext q
    by_cases hq : q = p
    · subst hq
      simp [hf]
    · simp [hq]

/-- Helper: `delete_log` always succeeds and its result is the purge of the
four derived paths. -/
theorem delete_log_eq (lp : List Char) (fs : FS) (n : List Char) :
    delete_log lp fs n = some (delete_log_result lp fs n) := by
  simp only [delete_log, rmIfExists_eq]
  refine congrArg some ?_
  funext q
  simp only [delete_log_result]
  by_cases h1 : q = get_logfile lp none (some n) <;>
    by_cases h2 : q = get_cfgfile lp none (some n) <;>
    by_cases h3 : q = get_pidfile lp none (some n) <;>
    by_cases h4 : q = get_ros_logfile lp (some n) <;>
    simp [h1, h2, h3, h4]

/-- C9: `delete_log` removes exactly the four derived files that exist,
silently skips missing ones (it never fails), leaves every other path
untouched, and a second run on the already-purged filesystem succeeds with
no further change. -/
theorem delete_log_spec (lp : List Char) (fs : FS) (n : List Char) :
    delete_log lp fs n = some (delete_log_result lp fs n) ∧
    delete_log lp (delete_log_result lp fs n) n = some (delete_log_result lp fs n) ∧
    ∀ q : List Char,
      q ≠ get_logfile lp none (some n) → q ≠ get_cfgfile lp none (some n) →
      q ≠ get_pidfile lp none (some n) → q ≠ get_ros_logfile lp (some n) →
      delete_log_result lp fs n q = fs q := by
  refine ⟨delete_log_eq lp fs n, ?_, ?_⟩
  · rw [delete_log_eq lp (delete_log_result lp fs n) n]
    refine congrArg some ?_
    funext q
    by_cases hm : q = get_logfile lp none (some n) ∨ q = get_cfgfile lp none (some n) ∨
        q = get_pidfile lp none (some n) ∨ q = get_ros_logfile lp (some n)
    · simp [delete_log_result, hm]
    · simp [delete_log_result, hm]
  · intro q h1 h2 h3 h4
    simp [delete_log_result, h1, h2, h3, h4]

/-- C9 witness: on a filesystem where every file exists, deleting the
artifacts of `"/a"` succeeds with the purged filesystem, and an unrelated
path survives. -/
theorem delete_log_witness :
    delete_log [] (fun _ => true) "/a".toList =
      some (delete_log_result [] (fun _ => true) "/a".toList) ∧
    delete_log_result [] (fun _ => true) "/a".toList "zzz".toList = true :=
  ⟨(delete_log_spec [] (fun _ => true) "/a".toList).1,
    (delete_log_spec [] (fun _ => true) "/a".toList).2.2 "zzz".toList
      (by decide) (by decide) (by decide) (by decide)⟩

/-- Helper: a decimal digit is not a space character of `str.strip()`. -/
theorem digit_notspace (c : Char) (h : c.isDigit = true) : pyspace c = false := by
  cases hs : pyspace c
  · rfl
  · exfalso
    simp only [pyspace, Bool.or_eq_true, beq_iff_eq] at hs
    rcases hs with ((((rfl | rfl) | rfl) | rfl) | rfl) | rfl <;> exact absurd h (by decide)

/-- Helper: a decimal digit is not a sign character. -/
theorem digit_nsign (c : Char) (h : c.isDigit = true) : c ≠ '+' ∧ c ≠ '-' := by
  constructor <;> intro hc <;> rw [hc] at h <;> exact absurd h (by decide)

/-- Helper: `dropWhile` is the identity when no element satisfies the
predicate. -/
theorem dropWhile_eq_self (p : Char → Bool) (s : List Char)
    (h : ∀ c ∈ s, p c = false) : s.dropWhile p = s := by
  cases s with
  | nil => rfl
  | cons c rest => simp [List.dropWhile, h c (List.mem_cons_self c rest)]

/-- Helper: `pystrip` is the identity on whitespace-free strings. -/
theorem pystrip_eq_self (s : List Char) (h : ∀ c ∈ s, pyspace c = false) :
    pystrip s = s := by
  unfold pystrip
  rw [dropWhile_eq_self pyspace s h]
  rw [dropWhile_eq_self pyspace s.reverse (fun c hc => h c (List.mem_reverse.1 hc))]
  exact List.reverse_reverse s

/-- Helper: `pyint?` on a non-empty all-digit string returns the digit
value. -/
theorem pyint?_digits (ds : List Char) (v : Nat) (hdig : ds.all Char.isDigit = true)
    (hv : digitsVal ds = some v) : pyint? ds = some (v : Int) := by
  have hall : ∀ c ∈ ds, c.isDigit = true := List.all_eq_true.1 hdig
  have hs : pystrip ds = ds :=
    pystrip_eq_self ds (fun c hc => digit_notspace c (hall c hc))
  cases ds with
  | nil => simp [digitsVal] at hv
  | cons d r =>
    have hd := hall d (List.mem_cons_self d r)
    have hds := digit_nsign d hd
    simp [pyint?, hs, hds.1, hds.2, hv]

/-- C4: on a string of the form `<digits>.<rest>`, `split_session_name`
splits at the first `'.'`, parses the digits as the PID, keeps of `<rest>`
only the part before the first tab, and strips whitespace from the kept
fragment; and when the part before the first `'.'` does not parse as an
integer, it returns the sentinel `(-1, '')`. -/
theorem split_session_name_digits_spec :
    (∀ (ds rest : List Char) (v : Nat), ds ≠ [] → ds.all Char.isDigit = true →
      digitsVal ds = some v →
      split_session_name (some (ds ++ '.' :: rest)) =
        (Pid.int (v : Int), pystrip (rest.takeWhile (fun c => c != '\t')))) ∧
    (∀ a b : List Char, '.' ∉ a → pyint? (pystrip a) = none →
      split_session_name (some (a ++ '.' :: b)) = (Pid.int (-1), [])) := by
  constructor
  · intro ds rest v hne hdig hv
    have hall : ∀ c ∈ ds, c.isDigit = true := List.all_eq_true.1 hdig
    have hdot : '.' ∉ ds := fun hm => absurd (hall '.' hm) (by decide)
    have hs : pystrip ds = ds :=
      pystrip_eq_self ds (fun c hc => digit_notspace c (hall c hc))
    simp [split_session_name, splitFirst_append '.' ds rest hdot, hs,
      pyint?_digits ds v hdig hv]
  · intro a b ha hint
    simp [split_session_name, splitFirst_append '.' a b ha, hint]

/-- C4 witness: the spec's concrete example
`split_session_name("12345._foo\tstatus text") = (12345, "_foo")`. -/
theorem split_session_name_digits_witness :
    split_session_name (some "12345._foo\tstatus text".toList) =
      (Pid.int 12345, "_foo".toList) := by
  have h := split_session_name_digits_spec.1 "12345".toList "_foo\tstatus text".toList
    12345 (by decide) (by decide) (by decide)
  have e1 : "12345".toList ++ '.' :: "_foo\tstatus text".toList =
      "12345._foo\tstatus text".toList := by decide
  rw [e1] at h
  rw [h]
  decide

/-- Helper: a greedy two-character replace fires on a pattern occurrence at
the head. -/
theorem pyReplace2_pair (p q : Char) (r rest : List Char) :
    pyReplace2 p q r (p :: q :: rest) = r ++ pyReplace2 p q r rest := by
  simp [pyReplace2]

/-- Helper: a greedy two-character replace steps over a head character that
cannot start the pattern. -/
theorem pyReplace2_cons_ne (p q : Char) (r : List Char) (c : Char) (x : List Char)
    (h : c ≠ p) : pyReplace2 p q r (c :: x) = c :: pyReplace2 p q r x := by
  cases x with
  | nil => simp [pyReplace2]
  | cons c2 rest => simp [pyReplace2, h]

/-- Helper: a greedy two-character replace steps over the head character
when the next character cannot finish the pattern. -/
theorem pyReplace2_cons_headne (p q : Char) (r : List Char) (c : Char) (x : List Char)
    (h : x.head? ≠ some q) : pyReplace2 p q r (c :: x) = c :: pyReplace2 p q r x := by
  cases x with
  | nil => simp [pyReplace2]
  | cons c2 rest =>
    have h2 : c2 ≠ q := fun he => h (by simp [he])
    simp [pyReplace2, h2]

/-- Helper: validity of a name passes to its tail. -/
theorem chain2ok_tail (c : Char) (r : List Char) (h : chain2ok (c :: r) = true) :
    chain2ok r = true := by
  cases r with
  | nil => rfl
  | cons c2 r2 =>
    simp only [chain2ok] at h
    by_cases hc : c = '/' ∧ (c2 = '/' ∨ c2 = '_')
    · rw [if_pos hc] at h
      exact absurd h (by decide)
    · rwa [if_neg hc] at h

/-- Helper: in a valid name, the character after a `'/'` is neither `'/'`
nor `'_'`. -/
theorem chain2ok_slash (c : Char) (r : List Char) (h : chain2ok ('/' :: c :: r) = true) :
    c ≠ '/' ∧ c ≠ '_' := by
  constructor <;> intro hh <;> subst hh <;> simp [chain2ok] at h

/-- Helper: a one-character replace distributes over append. -/
theorem pyReplaceChar_append (c : Char) (r a b : List Char) :
    pyReplaceChar c r (a ++ b) = pyReplaceChar c r a ++ pyReplaceChar c r b := by
  induction a with
  | nil => simp [pyReplaceChar]
  | cons x rest ih => simp [pyReplaceChar, ih, List.append_assoc]

/-- Helper: the encoder's two ordered substitutions fuse into one pass. -/
theorem encFuse_eq (s : List Char) :
    pyReplaceChar '/' ['_'] (pyReplaceChar '_' ['_', '_'] s) = encFuse s := by
  induction s with
  | nil => rfl
  | cons c rest ih =>
    have hin : pyReplaceChar '_' ['_', '_'] (c :: rest) =
        (if c = '_' then ['_', '_'] else [c]) ++ pyReplaceChar '_' ['_', '_'] rest := by
      simp [pyReplaceChar]
    rw [hin, pyReplaceChar_append, ih]
    by_cases h1 : c = '_'
    · subst h1
      simp [encFuse, pyReplaceChar]
    · by_cases h2 : c = '/'
      · subst h2
        simp [encFuse, pyReplaceChar]
      · simp [encFuse, pyReplaceChar, h1, h2]

/-- Helper, decoder pass 1 (`'__' → '//'`) on an encoded valid name: each
original `'_'` (now `"__"`) becomes `"//"`, each original `'/'` (now a lone
`'_'`) stays `'_'`; greedy pairing never crosses a character boundary of
the original name. -/
theorem stage1 (s : List Char) :
    chain2ok s = true → pyReplace2 '_' '_' ['/', '/'] (encFuse s) = gFuse s := by
  induction s with
  | nil => intro _; rfl
  | cons c rest ih =>
    intro h
    have hr : chain2ok rest = true := chain2ok_tail c rest h
    by_cases h1 : c = '_'
    · subst h1
      have he : encFuse ('_' :: rest) = '_' :: '_' :: encFuse rest := by simp [encFuse]
      rw [he, pyReplace2_pair, ih hr]
      simp [gFuse]
    · by_cases h2 : c = '/'
      · subst h2
        have he : encFuse ('/' :: rest) = '_' :: encFuse rest := by simp [encFuse]
        rw [he]
        have hh : (encFuse rest).head? ≠ some '_' := by
          cases rest with
          | nil => simp [encFuse]
          | cons c2 r2 =>
            have hc2 := chain2ok_slash c2 r2 h
            simp [encFuse, hc2.1, hc2.2]
        rw [pyReplace2_cons_headne _ _ _ _ _ hh, ih hr]
        simp [gFuse]
      · have he : encFuse (c :: rest) = c :: encFuse rest := by simp [encFuse, h1, h2]
        rw [he, pyReplace2_cons_ne _ _ _ _ _ h1, ih hr]
        simp [gFuse, h1, h2]

/-- Helper, decoder pass 2 (`'_' → '/'`) turns the pass-1 state into the
original name with every `'_'` expanded to `"//"`. -/
theorem stage2 (s : List Char) :
    pyReplaceChar '_' ['/'] (gFuse s) = ddFuse s := by
  induction s with
  | nil => rfl
  | cons c rest ih =>
    have hg : gFuse (c :: rest) =
        (if c = '/' then ['_'] else if c = '_' then ['/', '/'] else [c]) ++ gFuse rest := by
      simp [gFuse]
    rw [hg, pyReplaceChar_append, ih]
    by_cases h1 : c = '/'
    · subst h1
      simp [ddFuse, pyReplaceChar]
    · by_cases h2 : c = '_'
      · subst h2
        simp [ddFuse, pyReplaceChar]
      · simp [ddFuse, pyReplaceChar, h1, h2]

/-- Helper, decoder pass 3 (`'//' → '_'`) recovers the original valid
name. -/
theorem stage3 (s : List Char) :
    chain2ok s = true → pyReplace2 '/' '/' ['_'] (ddFuse s) = s := by
  induction s with
  | nil => intro _; rfl
  | cons c rest ih =>
    intro h
    have hr : chain2ok rest = true := chain2ok_tail c rest h
    by_cases h1 : c = '_'
    · subst h1
      have hd : ddFuse ('_' :: rest) = '/' :: '/' :: ddFuse rest := by simp [ddFuse]
      rw [hd, pyReplace2_pair, ih hr]
      rfl
    · by_cases h2 : c = '/'
      · subst h2
        have hd : ddFuse ('/' :: rest) = '/' :: ddFuse rest := by simp [ddFuse]
        rw [hd]
        have hh : (ddFuse rest).head? ≠ some '/' := by
          cases rest with
          | nil => simp [ddFuse]
          | cons c2 r2 =>
            have hc2 := chain2ok_slash c2 r2 h
            simp [ddFuse, hc2.1, hc2.2]
        rw [pyReplace2_cons_headne _ _ _ _ _ hh, ih hr]
      · have hd : ddFuse (c :: rest) = c :: ddFuse rest := by simp [ddFuse, h1]
        rw [hd, pyReplace2_cons_ne _ _ _ _ _ h2, ih hr]

/-- C1: decoding inverts encoding for every hierarchical worker name that
starts with `'/'` and is `chain2ok`-valid, i.e. has no empty component
(`"//"`) and no component starting with the delimiter (`"/_"`, the
double-delimiter collision the claim excludes). -/
theorem create_session_round_trip (s : List Char) (h1 : s.head? = some '/')
    (h2 : chain2ok s = true) :
    session_name2node_name (create_session_name (some s)) = s := by
  have hj : ns_join_root s = s := by simp [ns_join_root, h1]
  simp only [create_session_name, hj]
  rw [encFuse_eq]
  unfold session_name2node_name
  rw [stage1 s h2, stage2, stage3 s h2]

/-- C1 witness: the round trip at the concrete name `"/a/b"`. -/
theorem create_session_round_trip_witness :
    "/a/b".toList.head? = some '/' ∧ chain2ok "/a/b".toList = true ∧
    session_name2node_name (create_session_name (some "/a/b".toList)) = "/a/b".toList :=
  ⟨by decide, by decide, create_session_round_trip _ (by decide) (by decide)⟩

/-- Helper: on a present string, `split_session_name` always returns an
integer PID. -/
theorem split_shape (s : List Char) :
    ∃ pid np, split_session_name (some s) = (Pid.int pid, np) := by
  rcases hsf : splitFirst '.' s with _ | ⟨a, b⟩
  · exact ⟨-1, [], by simp [split_session_name, hsf]⟩
  · rcases hint : pyint? (pystrip a) with _ | n
    · exact ⟨-1, [], by simp [split_session_name, hsf, hint]⟩
    · exact ⟨n, pystrip (b.takeWhile (fun c => c != '\t')),
        by simp [split_session_name, hsf, hint]⟩

/-- Helper: a decimal digit character is not `'.'`. -/
theorem digitChar_ne_dot (d : Nat) (hd : d < 10) : Char.ofNat (48 + d) ≠ '.' := by
  interval_cases d <;> decide

/-- Helper: the digit string of a natural number contains no `'.'`. -/
theorem dot_not_mem_natStrAux (fuel n : Nat) : '.' ∉ natStrAux fuel n := by
  induction fuel generalizing n with
  | zero => simp [natStrAux]
  | succ f ih =>
    by_cases h : n < 10
    · simp only [natStrAux, if_pos h, List.mem_singleton]
      intro he
      exact digitChar_ne_dot n h he.symm
    · simp only [natStrAux, if_neg h]
      intro hm
      rcases List.mem_append.1 hm with hm | hm
      · exact ih (n / 10) hm
      · exact digitChar_ne_dot (n % 10) (by omega) (List.mem_singleton.1 hm).symm

/-- Helper: the `'%d'` rendering of an integer contains no `'.'`. -/
theorem dot_not_mem_intStr (i : Int) : '.' ∉ intStr i := by
  unfold intStr
  by_cases h : i < 0
  · rw [if_pos h]
    intro hm
    rcases List.mem_cons.1 hm with hm | hm
    · exact absurd hm (by decide)
    · exact dot_not_mem_natStrAux _ _ hm
  · rw [if_neg h]
    exact dot_not_mem_natStrAux _ _

/-- Helper: splitting a reconstructed `'%d.%s'` key at its first `'.'`
recovers the PID string and the fragment. -/
theorem splitFirst_screen_key (pid : Int) (np : List Char) :
    splitFirst '.' (screen_key pid np) = some (intStr pid, np) :=
  splitFirst_append '.' (intStr pid) np (dot_not_mem_intStr pid)

/-- Helper: lookup characterization of the `get_active_screens` loop with a
non-empty node-name filter. -/
theorem screens_go_filtered (nodename : List Char) (hnn : nodename ≠ [])
    (lines : List (List Char)) :
    ∀ (acc : Dict) (k : List Char),
      screens_go nodename lines acc k =
        if lines.any (line_hit_filtered nodename k) then some nodename else acc k := by
  induction lines with
  | nil => intro acc k; simp [screens_go]
  | cons item rest ih =>
    intro acc k
    obtain ⟨pid, np, hsp⟩ := split_shape item
    have hhit : line_hit_filtered nodename k item =
        decide (pid ≠ -1 ∧ np.head? = some '_' ∧
          session_name2node_name np = nodename ∧ k = screen_key pid np) := by
      simp [line_hit_filtered, hsp]
    by_cases h1 : pid = -1
    · have hstep : screens_go nodename (item :: rest) acc = screens_go nodename rest acc := by
        simp [screens_go, hsp, h1]
      have hf : line_hit_filtered nodename k item = false := by
        rw [hhit]
        simp [h1]
      rw [hstep, ih acc k, List.any_cons, hf]
      simp
    · by_cases h2 : np.head? = some '_'
      · by_cases h3 : nodename = session_name2node_name np
        · have hstep : screens_go nodename (item :: rest) acc =
              screens_go nodename rest (dinsert (screen_key pid np) nodename acc) := by
            simp [screens_go, hsp, h1, hnn, h2, h3]
          have hf : line_hit_filtered nodename k item = decide (k = screen_key pid np) := by
            rw [hhit]
            refine decide_eq_decide.mpr ⟨?_, ?_⟩
            · rintro ⟨-, -, -, hk⟩
              exact hk
            · intro hk
              exact ⟨h1, h2, h3.symm, hk⟩
          rw [hstep, ih _ k, List.any_cons, hf]
          by_cases h4 : k = screen_key pid np
          · simp [h4, dinsert]
          · simp [h4, dinsert]
        · have hstep : screens_go nodename (item :: rest) acc =
              screens_go nodename rest acc := by
            simp [screens_go, hsp, h1, hnn, h2, h3]
          have hf : line_hit_filtered nodename k item = false := by
            rw [hhit]
            simp only [decide_eq_false_iff_not]
            rintro ⟨-, -, h3x, -⟩
            exact h3 h3x.symm
          rw [hstep, ih acc k, List.any_cons, hf]
          simp
      · have hstep : screens_go nodename (item :: rest) acc =
            screens_go nodename rest acc := by
          simp [screens_go, hsp, h1, hnn, h2]
        have hf : line_hit_filtered nodename k item = false := by
          rw [hhit]
          simp only [decide_eq_false_iff_not]
          rintro ⟨-, h2x, -, -⟩
          exact h2 h2x
        rw [hstep, ih acc k, List.any_cons, hf]
        simp

/-- Helper: lookup characterization of the `get_active_screens` loop with
no filter (empty node name). -/
theorem screens_go_all (lines : List (List Char)) :
    ∀ (acc : Dict) (k : List Char),
      screens_go [] lines acc k =
        if lines.any (line_hit_all k) then
          (splitFirst '.' k).map (fun p => session_name2node_name p.2)
        else acc k := by
  induction lines with
  | nil => intro acc k; simp [screens_go]
  | cons item rest ih =>
    intro acc k
    obtain ⟨pid, np, hsp⟩ := split_shape item
    have hhit : line_hit_all k item = decide (pid ≠ -1 ∧ k = screen_key pid np) := by
      simp [line_hit_all, hsp]
    by_cases h1 : pid = -1
    · have hstep : screens_go [] (item :: rest) acc = screens_go [] rest acc := by
        simp [screens_go, hsp, h1]
      have hf : line_hit_all k item = false := by
        rw [hhit]
        simp [h1]
      rw [hstep, ih acc k, List.any_cons, hf]
      simp
    · have hstep : screens_go [] (item :: rest) acc =
          screens_go [] rest
            (dinsert (screen_key pid np) (session_name2node_name np) acc) := by
        simp [screens_go, hsp, h1]
      have hf : line_hit_all k item = decide (k = screen_key pid np) := by
        rw [hhit]
        refine decide_eq_decide.mpr ⟨?_, ?_⟩
        · rintro ⟨-, hk⟩
          exact hk
        · intro hk
          exact ⟨h1, hk⟩
      rw [hstep, ih _ k, List.any_cons, hf]
      by_cases h4 : k = screen_key pid np
      · subst h4
        rw [splitFirst_screen_key]
        simp [dinsert]
      · simp [h4, dinsert]

/-- Helper: `any`-to-existential bridge for the filtered hit test. -/
theorem any_line_hit_filtered (lines : List (List Char)) (nodename k : List Char) :
    lines.any (line_hit_filtered nodename k) = true ↔
      ∃ item ∈ lines, ∃ pid np,
        split_session_name (some item) = (Pid.int pid, np) ∧ pid ≠ -1 ∧
        np.head? = some '_' ∧ session_name2node_name np = nodename ∧
        k = screen_key pid np := by
  rw [List.any_eq_true]
  constructor
  · rintro ⟨item, hmem, hhit⟩
    obtain ⟨pid, np, hsp⟩ := split_shape item
    have he : line_hit_filtered nodename k item =
        decide (pid ≠ -1 ∧ np.head? = some '_' ∧
          session_name2node_name np = nodename ∧ k = screen_key pid np) := by
      simp [line_hit_filtered, hsp]
    rw [he, decide_eq_true_eq] at hhit
    exact ⟨item, hmem, pid, np, hsp, hhit.1, hhit.2.1, hhit.2.2.1, hhit.2.2.2⟩
  · rintro ⟨item, hmem, pid, np, hsp, ha, hb, hc, hd⟩
    refine ⟨item, hmem, ?_⟩
    have he : line_hit_filtered nodename k item =
        decide (pid ≠ -1 ∧ np.head? = some '_' ∧
          session_name2node_name np = nodename ∧ k = screen_key pid np) := by
      simp [line_hit_filtered, hsp]
    rw [he, decide_eq_true_eq]
    exact ⟨ha, hb, hc, hd⟩

/-- Helper: `any`-to-existential bridge for the unfiltered hit test. -/
theorem any_line_hit_all (lines : List (List Char)) (k : List Char) :
    lines.any (line_hit_all k) = true ↔
      ∃ item ∈ lines, ∃ pid np,
        split_session_name (some item) = (Pid.int pid, np) ∧ pid ≠ -1 ∧
        k = screen_key pid np := by
  rw [List.any_eq_true]
  constructor
  · rintro ⟨item, hmem, hhit⟩
    obtain ⟨pid, np, hsp⟩ := split_shape item
    have he : line_hit_all k item = decide (pid ≠ -1 ∧ k = screen_key pid np) := by
      simp [line_hit_all, hsp]
    rw [he, decide_eq_true_eq] at hhit
    exact ⟨item, hmem, pid, np, hsp, hhit.1, hhit.2⟩
  · rintro ⟨item, hmem, pid, np, hsp, ha, hb⟩
    refine ⟨item, hmem, ?_⟩
    have he : line_hit_all k item = decide (pid ≠ -1 ∧ k = screen_key pid np) := by
      simp [line_hit_all, hsp]
    rw [he, decide_eq_true_eq]
    exact ⟨ha, hb⟩

/-- C3: membership characterization of `get_active_screens`.  With a
non-empty `nodename`, the result maps `k` to `v` exactly when some line
parses to a valid PID with a fragment that starts with `'_'` and decodes to
`nodename`, with `k` the reconstructed `'%d.%s'` key and `v = nodename`.
With the empty `nodename`, every line with a valid PID is included, keyed
the same way, mapped to its decoded worker name. -/
theorem get_active_screens_spec (lines : List (List Char)) (nodename k v : List Char) :
    (nodename ≠ [] →
      (get_active_screens lines nodename k = some v ↔
        v = nodename ∧ ∃ item ∈ lines, ∃ pid np,
          split_session_name (some item) = (Pid.int pid, np) ∧ pid ≠ -1 ∧
          np.head? = some '_' ∧ session_name2node_name np = nodename ∧
          k = screen_key pid np)) ∧
    (get_active_screens lines [] k = some v ↔
      ∃ item ∈ lines, ∃ pid np,
        split_session_name (some item) = (Pid.int pid, np) ∧ pid ≠ -1 ∧
        k = screen_key pid np ∧ v = session_name2node_name np) := by
  constructor
  · intro hnn
    rw [get_active_screens, screens_go_filtered nodename hnn lines dempty k]
    by_cases ha : lines.any (line_hit_filtered nodename k) = true
    · rw [if_pos ha]
      constructor
      · intro hv
        exact ⟨(Option.some_inj.1 hv).symm, (any_line_hit_filtered lines nodename k).1 ha⟩
      · rintro ⟨rfl, -⟩
        rfl
    · rw [if_neg ha]
      constructor
      · intro hv
        exact absurd hv (by simp [dempty])
      · rintro ⟨-, hex⟩
        exact absurd ((any_line_hit_filtered lines nodename k).2 hex) ha
  · rw [get_active_screens, screens_go_all lines dempty k]
    by_cases ha : lines.any (line_hit_all k) = true
    · rw [if_pos ha]
      obtain ⟨item, hmem, pid, np, hsp, hp, hk⟩ := (any_line_hit_all lines k).1 ha
      subst hk
      rw [splitFirst_screen_key]
      constructor
      · intro hv
        exact ⟨item, hmem, pid, np, hsp, hp, rfl, (Option.some_inj.1 hv).symm⟩
      · rintro ⟨item2, hmem2, pid2, np2, hsp2, hp2, hk2, rfl⟩
        have hnp : np = np2 := by
          have h1 := splitFirst_screen_key pid np
          have h2 := splitFirst_screen_key pid2 np2
          rw [← hk2] at h2
          rw [h1] at h2
          exact (Prod.mk.injEq _ _ _ _ ▸ Option.some_inj.1 h2).2
        rw [hnp]
        rfl
    · rw [if_neg ha]
      constructor
      · intro hv
        exact absurd hv (by simp [dempty])
      · intro hex
        obtain ⟨item, hmem, pid, np, hsp, hp, hk, -⟩ := hex
        exact absurd ((any_line_hit_all lines k).2 ⟨item, hmem, pid, np, hsp, hp, hk⟩) ha

/-- C3 witness: registry line `"7._a"` with filter `"/a"` yields exactly the
entry `"7._a" ↦ "/a"`. -/
theorem get_active_screens_witness :
    get_active_screens ["7._a".toList] "/a".toList "7._a".toList = some "/a".toList := by
  have h := (get_active_screens_spec ["7._a".toList] "/a".toList "7._a".toList
    "/a".toList).1 (by decide)
  refine h.mpr ⟨rfl, "7._a".toList, by simp, 7, "_a".toList, by decide, by decide,
    by decide, by decide, by decide⟩

/-- C10: the line `"-1.x"` parses successfully to PID `-1` with the
non-empty fragment `"x"`, indistinguishable from the invalid sentinel by
the PID test alone, so `get_active_screens` excludes it from the result. -/
theorem minus_one_session_excluded :
    split_session_name (some "-1.x".toList) = (Pid.int (-1), "x".toList) ∧
    "x".toList ≠ [] ∧
    ∀ k : List Char, get_active_screens ["-1.x".toList] [] k = none := by
  refine ⟨by decide, by decide, fun k => ?_⟩
  have h : split_session_name (some ['-', '1', '.', 'x']) = (Pid.int (-1), ['x']) := by
    decide
  simp [get_active_screens, screens_go, h, dempty]

